import Mathlib

/-!
Verification of the cryptographic session layer of the QuantumSafeMessagingApp
repository (frontend/src/utilities/cryptoUtils.js, secureStorage.js, db.js,
cryptomanager.js and the chat-message handler of pages/ChatPage.jsx) against its
natural-language specification.

Modelling conventions:
* Byte arrays (`Uint8Array` / `ArrayBuffer`) are `List Nat`, each element < 256
  where that matters (stated as hypotheses).
* Hex strings are `List Char`; the hex conversion helpers of cryptoUtils.js are
  translated literally, including the quirks of `"...".match(/.{2}/g)` (which
  yields `null` — a thrown `TypeError` — on inputs shorter than two characters,
  and silently drops a trailing odd character) and of `parseInt(s, 16)` (which
  parses the longest valid prefix and yields `NaN`, stored as byte 0, when the
  first character is not a hex digit).
* `crypto.subtle` AES-GCM is modelled symbolically: a ciphertext is either a
  genuine encryption, recording the key, IV and plaintext it was produced from
  and decrypting exactly under that key and IV, or a garbled blob (standing for
  any bitwise corruption of a ciphertext), which never authenticates.  This is
  the standard idealization of an AEAD: the 128-bit GCM tag makes any forged or
  modified ciphertext fail decryption.
* PBKDF2 (`deriveKey`), the ML-KEM operations and the Falcon signature
  operations are platform/library primitives, not repository code; they are
  parameters of the definitions (a key-derivation function, a `KEM` bundle with
  its correctness law, a `Sig` verifier), instantiated with concrete toy
  instances in witness theorems.
* A `CryptoKey` imported with `crypto.subtle.importKey("raw", bs, "AES-GCM")`
  is identified with its raw bytes `bs` (the import applies no derivation).
* IndexedDB (Dexie) tables are lists of records kept in insertion order;
  auto-incremented primary keys are modelled explicitly, so `first()` on an
  index query returns the lowest-id (oldest) matching record, as Dexie does.
* Randomness (`crypto.getRandomValues`) and the clock (`Date.now()`) are
  explicit arguments of the functions that draw them.
* Thrown exceptions are `Except Err` results; where a function mutates state
  before throwing (the `useRef` state survives a throw), the function returns
  the mutated state alongside the `Except` result.
-/

/-- Byte arrays (`Uint8Array` / `ArrayBuffer` contents). -/
abbrev Bytes := List Nat

/-- Hex strings, as lists of characters. -/
abbrev HexStr := List Char

/-- The JS errors the modelled code can throw. -/
inductive Err where
  /-- AES-GCM tag verification failure (`crypto.subtle.decrypt` rejection). -/
  | authFailure
  /-- `encryptAES`: "Shared secret missing — cannot restore AES key". -/
  | sharedSecretMissing
  /-- A `TypeError` (e.g. `importKey` on `null`, `.map` on `null`). -/
  | typeError
  /-- `storeFalconPeerKey`: "Invalid Falcon public key format/length". -/
  | validationError
  /-- `storeFalconPeerKey`: "peerId and falconPk required". -/
  | required
deriving DecidableEq, Repr

/-! ## cryptoUtils.js: hex conversion helpers -/

/-- `b.toString(16)` digit: 0–9 then lowercase a–f (as produced by JS for
byte values). -/
def hexDigitChar (n : Nat) : Char :=
  if n < 10 then Char.ofNat (48 + n) else Char.ofNat (87 + n)

/-- `bufToHex` (= `arrayBufferToHex`): each byte to two lowercase hex digits
(`b.toString(16).padStart(2, "0")` for `b < 256`). -/
def bufToHex (bs : Bytes) : HexStr :=
  bs.flatMap (fun b => [hexDigitChar (b / 16), hexDigitChar (b % 16)])

/-- `arrayBufferToHex` of cryptoUtils.js has the same body as `bufToHex`. -/
def arrayBufferToHex (bs : Bytes) : HexStr := bufToHex bs

/-- Value of one hex digit (0–9, a–f, A–F). -/
def hexCharVal (c : Char) : Option Nat :=
  if 48 ≤ c.toNat ∧ c.toNat ≤ 57 then some (c.toNat - 48)
  else if 97 ≤ c.toNat ∧ c.toNat ≤ 102 then some (c.toNat - 87)
  else if 65 ≤ c.toNat ∧ c.toNat ≤ 70 then some (c.toNat - 55)
  else none

/-- `parseInt(ab, 16)` for a two-character chunk (or a trailing single
character): parses the longest valid prefix; `NaN` is stored as byte 0 by the
`Uint8Array`. -/
def parseHexPair (a : Char) (b : Option Char) : Nat :=
  match hexCharVal a with
  | none => 0
  | some va =>
    match b with
    | none => va
    | some bc =>
      match hexCharVal bc with
      | none => va
      | some vb => 16 * va + vb

/-- Parse consecutive two-character chunks, dropping a trailing odd character
(the matches of `/.{2}/g`). -/
def hexPairsParse : HexStr → Bytes
  | a :: b :: rest => parseHexPair a (some b) :: hexPairsParse rest
  | _ => []

/-- `hexToBuf`: `hex.match(/.{2}/g)` is `null` for strings shorter than two
characters, so `.map` throws a `TypeError` there (`none`); otherwise each
two-character chunk is parsed and a trailing odd character is dropped. -/
def hexToBuf (s : HexStr) : Option Bytes :=
  if s.length < 2 then none else some (hexPairsParse s)

/-- `hexToArrayBuffer`: a manual loop over index pairs; a trailing single
character is parsed alone (all call sites pass even-length hex). -/
def hexToArrayBuffer : HexStr → Bytes
  | a :: b :: rest => parseHexPair a (some b) :: hexToArrayBuffer rest
  | [a] => [parseHexPair a none]
  | [] => []

/-- `TextEncoder().encode`: characters to their code points (byte-level UTF-8
details are irrelevant to the claims; injectivity is what matters). -/
def strBytes (s : String) : Bytes := s.toList.map Char.toNat

/-- `TextDecoder().decode`, inverse of `strBytes` on its image. -/
def bytesStr (bs : Bytes) : String :=
  String.mk (bs.map Char.ofNat)

/-! ## crypto.subtle AES-GCM, idealized -/

/-- Symbolic AES-GCM ciphertext: either a genuine encryption recording the key,
IV and plaintext it was produced from, or a garbled blob (any bitwise
modification of ciphertext bytes), which never carries a valid tag. -/
inductive GcmCt where
  | enc (key : Bytes) (iv : Bytes) (msg : Bytes)
  | garbled (c : GcmCt)
deriving DecidableEq, Repr

/-- `crypto.subtle.encrypt({name: "AES-GCM", iv}, key, msg)`. -/
def subtleEncrypt (key iv msg : Bytes) : GcmCt := .enc key iv msg

/-- `crypto.subtle.decrypt({name: "AES-GCM", iv}, key, ct)`: succeeds exactly
on a genuine encryption under the same key and IV (the 128-bit tag check);
`none` models the thrown `OperationError`. -/
def subtleDecrypt (key iv : Bytes) : GcmCt → Option Bytes
  | .enc k i m => if k = key ∧ i = iv then some m else none
  | .garbled _ => none

/-- `aesEncrypt(key, plainHex)` of cryptoUtils.js; the fresh random 12-byte IV
is an explicit argument. Fails (TypeError) when `hexToBuf` throws. -/
def aesEncrypt (key : Bytes) (plainHex : HexStr) (iv : Bytes) :
    Except Err (Bytes × GcmCt) :=
  match hexToBuf plainHex with
  | none => .error .typeError
  | some m => .ok (iv, subtleEncrypt key iv m)

/-- `aesDecrypt(key, iv, ciphertext)` of cryptoUtils.js: subtle decryption
(whose tag failure propagates — there is no catch), then `bufToHex`. -/
def aesDecrypt (key iv : Bytes) (ct : GcmCt) : Except Err HexStr :=
  match subtleDecrypt key iv ct with
  | none => .error .authFailure
  | some bs => .ok (bufToHex bs)

/-! ## Basic roundtrip lemmas for the hex helpers -/

theorem hexCharVal_hexDigitChar {n : Nat} (h : n < 16) :
    hexCharVal (hexDigitChar n) = some n := by
  interval_cases n <;> decide

theorem parseHexPair_digits {b : Nat} (h : b < 256) :
    parseHexPair (hexDigitChar (b / 16)) (some (hexDigitChar (b % 16))) = b := by
  have h1 : b / 16 < 16 := Nat.div_lt_of_lt_mul (by omega)
  have h2 : b % 16 < 16 := Nat.mod_lt _ (by omega)
  simp [parseHexPair, hexCharVal_hexDigitChar h1, hexCharVal_hexDigitChar h2]
  omega

theorem bufToHex_cons (b : Nat) (rest : Bytes) :
    bufToHex (b :: rest) =
      hexDigitChar (b / 16) :: hexDigitChar (b % 16) :: bufToHex rest := by
  simp [bufToHex]

theorem hexPairsParse_bufToHex {bs : Bytes} (h : ∀ b ∈ bs, b < 256) :
    hexPairsParse (bufToHex bs) = bs := by
  induction bs with
  | nil => rfl
  | cons b rest ih =>
    have hb : b < 256 := h b (by simp)
    rw [bufToHex_cons, hexPairsParse]
    exact congrArg₂ List.cons (parseHexPair_digits hb)
      (ih (fun x hx => h x (by simp [hx])))

theorem hexToBuf_bufToHex {bs : Bytes} (h : ∀ b ∈ bs, b < 256) (hne : bs ≠ []) :
    hexToBuf (bufToHex bs) = some bs := by
  have hlen : 2 ≤ (bufToHex bs).length := by
    match bs, hne with
    | b :: rest, _ => simp [bufToHex]
  rw [hexToBuf, if_neg (by omega)]
  exact congrArg some (hexPairsParse_bufToHex h)

theorem hexToArrayBuffer_bufToHex {bs : Bytes} (h : ∀ b ∈ bs, b < 256) :
    hexToArrayBuffer (bufToHex bs) = bs := by
  induction bs with
  | nil => rfl
  | cons b rest ih =>
    have hb : b < 256 := h b (by simp)
    rw [bufToHex_cons, hexToArrayBuffer]
    exact congrArg₂ List.cons (parseHexPair_digits hb)
      (ih (fun x hx => h x (by simp [hx])))

/-! ## db.js: the Dexie database (version 2 schema)

`identity` is keyed by the unique primary key `&userId` (a `put` replaces the
record with the same `userId`).  `messages` and `peers` have auto-incremented
primary keys `++id`; `[userId+peerId]` on `peers` is a plain (non-unique)
compound index, so `add` always appends a new record and an `equals(...).first()`
query returns the matching record with the lowest id (insertion order). -/

/-- One record of the `identity` table. Public keys, IVs and the salt are
persisted as hex strings; the two encrypted secret keys are AES-GCM
ciphertexts (persisted hex-encoded in the source; hex coding of opaque
ciphertext bytes is a bijection and is elided on these two fields). -/
structure IdentityRow where
  userId : String
  kyberPk : HexStr
  falconPk : HexStr
  encKyberSk : GcmCt
  kyberIv : HexStr
  encFalconSk : GcmCt
  falconIv : HexStr
  salt : HexStr
deriving DecidableEq, Repr

/-- One record of the `peers` table.  Records written by `addPeer` carry
`userId`, `encSharedKey`, `iv` and `salt`; records written by
`storeFalconPeerKey` for a previously unknown peer carry only `peerId` and
`falconPk` (missing fields are `none`, and a record missing `userId` does not
appear in the `[userId+peerId]` or `userId` indexes). -/
structure PeerRow where
  id : Nat
  userId : Option String
  peerId : String
  kyberPk : Option Bytes
  falconPk : Option HexStr
  encSharedKey : Option GcmCt
  iv : Option HexStr
  salt : Option HexStr
deriving DecidableEq, Repr

/-- One record of the `messages` table (`ciphertext` and `iv` are stored as raw
binary, not hex). -/
structure MessageRow where
  userId : String
  peerId : String
  direction : String
  ciphertext : GcmCt
  iv : Bytes
  createdAt : Nat
deriving DecidableEq, Repr

/-- The CryptoChatDB database. `nextPeerId` models the `++id` auto-increment
counter of the `peers` table. -/
structure DB where
  identity : List IdentityRow
  messages : List MessageRow
  peers : List PeerRow
  nextPeerId : Nat
deriving DecidableEq, Repr

/-- `db.identity.get(userId)` (primary-key lookup). -/
def identityGet (l : List IdentityRow) (u : String) : Option IdentityRow :=
  l.find? (fun r => r.userId = u)

/-- `db.identity.put(row)`: replace the record with the same `&userId` primary
key, or insert a fresh one. -/
def identityPut (l : List IdentityRow) (row : IdentityRow) : List IdentityRow :=
  if l.any (fun r => r.userId = row.userId) then
    l.map (fun r => if r.userId = row.userId then row else r)
  else
    l ++ [row]

/-- `db.peers.where("[userId+peerId]").equals([u, p]).first()`: among records
carrying both fields, the one with the lowest id (insertion order). -/
def peersFirstByPair (peers : List PeerRow) (u p : String) : Option PeerRow :=
  (peers.filter (fun r => r.userId = some u ∧ r.peerId = p)).head?

/-- `db.peers.where("peerId").equals(p).first()`. -/
def peersFirstByPeerId (peers : List PeerRow) (p : String) : Option PeerRow :=
  (peers.filter (fun r => r.peerId = p)).head?

/-- `db.peers.where("userId").equals(u).toArray()`. -/
def peersByUserId (peers : List PeerRow) (u : String) : List PeerRow :=
  peers.filter (fun r => r.userId = some u)

/-- `db.peers.add(record)`: append with the next auto-incremented id. -/
def peersAdd (db : DB) (mk : Nat → PeerRow) : DB :=
  { db with peers := db.peers ++ [mk db.nextPeerId], nextPeerId := db.nextPeerId + 1 }

/-- `db.peers.update(id, {falconPk: hex})`. -/
def peersUpdateFalcon (peers : List PeerRow) (i : Nat) (hex : HexStr) : List PeerRow :=
  peers.map (fun r => if r.id = i then { r with falconPk := some hex } else r)

/-- Insertion sort by `createdAt` (`.sortBy("createdAt")`). -/
def insertByTime (m : MessageRow) : List MessageRow → List MessageRow
  | [] => [m]
  | x :: xs => if m.createdAt < x.createdAt then m :: x :: xs else x :: insertByTime m xs

/-- Sort a message list by `createdAt`. -/
def sortByCreatedAt : List MessageRow → List MessageRow
  | [] => []
  | x :: xs => insertByTime x (sortByCreatedAt xs)

/-! ## Key-material inputs (string or byte-array shaped) -/

/-- A public key supplied either as a hex string or as a byte array
(`Uint8Array` / plain array / `ArrayBuffer` all behave identically in the
source branches). -/
inductive KeyInput where
  | hex (s : HexStr)
  | bytes (b : Bytes)
deriving DecidableEq, Repr

/-- `s.startsWith("0x") ? s.slice(2) : s`. -/
def strip0x (s : HexStr) : HexStr :=
  match s with
  | '0' :: 'x' :: rest => rest
  | _ => s

/-- JS truthiness of a key input (`""` is falsy; arrays, even empty, are
truthy). -/
def keyInputFalsy : KeyInput → Bool
  | .hex s => s.isEmpty
  | .bytes _ => false

/-! ## secureStorage.js -/

/-- A KEM or signature keypair as held in memory (`{pk, sk}` byte arrays). -/
structure KeyPairB where
  pk : Bytes
  sk : Bytes
deriving DecidableEq, Repr

/-- A passphrase-based key-derivation function standing for
`deriveKey(passphrase, salt)` of cryptoUtils.js (PBKDF2, 200k iterations,
SHA-256, 256-bit AES-GCM key) — a deterministic platform primitive, hence a
function parameter of everything that derives keys. -/
abbrev Kdf := String → Bytes → Bytes

/-- `storeIdentityKeys(userId, passphrase, kyberKeys, falconKeys)`: one fresh
salt and one derived key protect both secret keys, each encrypted under its own
fresh IV; the identity record is `put` under the unique `&userId` key.  The
random salt and the two random IVs are explicit arguments. -/
def storeIdentityKeys (kdf : Kdf) (db : DB) (userId passphrase : String)
    (kyberKeys falconKeys : KeyPairB) (salt ivK ivF : Bytes) : Except Err DB := do
  let aesKey := kdf passphrase salt
  let (ivKyber, encKyber) ← aesEncrypt aesKey (bufToHex kyberKeys.sk) ivK
  let (ivFalcon, encFalcon) ← aesEncrypt aesKey (bufToHex falconKeys.sk) ivF
  let row : IdentityRow :=
    { userId := userId
      kyberPk := bufToHex kyberKeys.pk
      falconPk := bufToHex falconKeys.pk
      encKyberSk := encKyber
      kyberIv := arrayBufferToHex ivKyber
      encFalconSk := encFalcon
      falconIv := arrayBufferToHex ivFalcon
      salt := arrayBufferToHex salt }
  .ok { db with identity := identityPut db.identity row }

/-- The value returned by `loadIdentityKeys`: hex public keys straight from the
record, hex secret keys from decryption. -/
structure IdentityKeys where
  kyberPk : HexStr
  kyberSk : HexStr
  falconPk : HexStr
  falconSk : HexStr
deriving DecidableEq, Repr

/-- `loadIdentityKeys(userId, passphrase)`: `null` (`.ok none`) when no record
exists; rederives the key from the stored salt and decrypts both secrets; a
failed tag check propagates (`.error .authFailure`). -/
def loadIdentityKeys (kdf : Kdf) (db : DB) (userId passphrase : String) :
    Except Err (Option IdentityKeys) := do
  match identityGet db.identity userId with
  | none => .ok none
  | some row =>
    let aesKey := kdf passphrase (hexToArrayBuffer row.salt)
    let kyberSk ← aesDecrypt aesKey (hexToArrayBuffer row.kyberIv) row.encKyberSk
    let falconSk ← aesDecrypt aesKey (hexToArrayBuffer row.falconIv) row.encFalconSk
    .ok (some { kyberPk := row.kyberPk, kyberSk := kyberSk
                falconPk := row.falconPk, falconSk := falconSk })

/-- The `falconPk` normalization inside `addPeer`: a hex string is stored with
a `0x` prefix stripped, a byte array is stored hex-encoded, `null`/`undefined`
stores nothing. -/
def addPeerFalconField : Option KeyInput → Option HexStr
  | none => none
  | some (.hex s) => some (strip0x s)
  | some (.bytes b) => some (bufToHex b)

/-- `addPeer(userId, peerId, peerKyberPk, sharedAESKey, passphrase, falconPk)`:
encrypts the shared secret under a key derived from the passphrase and a fresh
salt, and **adds** a new record to the `peers` table (auto-incremented id — no
overwrite of an existing record for the same pair). -/
def addPeer (kdf : Kdf) (db : DB) (userId peerId : String) (peerKyberPk : Bytes)
    (sharedAESKey : Bytes) (passphrase : String) (salt iv0 : Bytes)
    (falconPk : Option KeyInput) : Except Err DB := do
  let aesKey := kdf passphrase salt
  let (iv, ciphertext) ← aesEncrypt aesKey (bufToHex sharedAESKey) iv0
  .ok (peersAdd db (fun i =>
    { id := i
      userId := some userId
      peerId := peerId
      kyberPk := some peerKyberPk
      falconPk := addPeerFalconField falconPk
      encSharedKey := some ciphertext
      iv := some (arrayBufferToHex iv)
      salt := some (arrayBufferToHex salt) }))

/-- `deriveStoredSharedKey(userId, peerId, passphrase)`: `first()` record of the
`[userId+peerId]` index (the **oldest** record for the pair), `null` when there
is none; otherwise decrypt the stored shared secret (tag failure propagates)
and return its bytes (`hexToBuf` of the decrypted hex). -/
def deriveStoredSharedKey (kdf : Kdf) (db : DB) (userId peerId passphrase : String) :
    Except Err (Option Bytes) :=
  match peersFirstByPair db.peers userId peerId with
  | none => .ok none
  | some row =>
    match row.salt, row.iv, row.encSharedKey with
    | some saltHex, some ivHex, some encKey =>
      let aesKey := kdf passphrase (hexToArrayBuffer saltHex)
      match subtleDecrypt aesKey (hexToArrayBuffer ivHex) encKey with
      | none => .error .authFailure
      | some bs =>
        match hexToBuf (bufToHex bs) with
        | none => .error .typeError
        | some v => .ok (some v)
    | _, _, _ => .error .typeError

/-- `storeMessage(userId, peerId, direction, text, aesCryptoKey)`: encrypt the
text under the session key with a fresh IV and append a `messages` record
stamped `Date.now()`. -/
def storeMessage (db : DB) (userId peerId direction : String) (text : String)
    (aesKey : Bytes) (now : Nat) (msgIv : Bytes) : DB :=
  { db with messages := db.messages ++
      [{ userId := userId, peerId := peerId, direction := direction
         ciphertext := subtleEncrypt aesKey msgIv (strBytes text)
         iv := msgIv, createdAt := now }] }

/-- The shape returned by `loadMessages` for one message. -/
structure RestoredMsg where
  sender : String
  text : String
  timestamp : Nat
deriving DecidableEq, Repr

/-- `loadMessages(userId, peerId, aesCryptoKey)`: the conversation's records in
`createdAt` order, each decrypted with the given key; a single failed
decryption rejects the whole `Promise.all` (`.error`). -/
def loadMessages (db : DB) (userId peerId : String) (aesKey : Bytes) :
    Except Err (List RestoredMsg) :=
  (sortByCreatedAt (db.messages.filter
      (fun m => m.userId = userId ∧ m.peerId = peerId))).mapM
    (fun m =>
      match subtleDecrypt aesKey m.iv m.ciphertext with
      | none => .error .authFailure
      | some bs => .ok { sender := if m.direction = "incoming" then peerId else userId
                         text := bytesStr bs
                         timestamp := m.createdAt })

/-- `isHexString(s)`: `/^[0-9a-fA-F]+$/.test(s)` (at least one character, all
hex digits). -/
def isHexString (s : HexStr) : Bool :=
  !s.isEmpty && s.all (fun c => (hexCharVal c).isSome)

/-- `validateFalconPublicKey(input)` of `storeFalconPeerKey`: a falsy input is
rejected; a string must be even-length hex (after stripping `0x`) decoding to
16–8192 bytes; a byte array must be 16–8192 bytes long. -/
def validateFalconPublicKey (input : KeyInput) : Bool :=
  if keyInputFalsy input then false
  else
    match input with
    | .hex s =>
      let candidate := strip0x s
      if candidate.length % 2 ≠ 0 then false
      else if !isHexString candidate then false
      else decide (16 ≤ candidate.length / 2 ∧ candidate.length / 2 ≤ 8192)
    | .bytes b => decide (16 ≤ b.length ∧ b.length ≤ 8192)

/-- `storeFalconPeerKey(peerId, falconPk)`: require both arguments truthy,
validate the key, normalize it to hex, then update the first `peers` record
with this `peerId` (keyed by `peerId` alone) or add a minimal new record. -/
def storeFalconPeerKey (db : DB) (peerId : String) (falconPk : Option KeyInput) :
    Except Err DB := do
  match falconPk with
  | none => .error .required
  | some ki =>
    if peerId.isEmpty ∨ keyInputFalsy ki then .error .required
    else if !validateFalconPublicKey ki then .error .validationError
    else
      let hex := match ki with
        | .hex s => strip0x s
        | .bytes b => bufToHex b
      match peersFirstByPeerId db.peers peerId with
      | some existing =>
        .ok { db with peers := peersUpdateFalcon db.peers existing.id hex }
      | none =>
        .ok (peersAdd db (fun i =>
          { id := i, userId := none, peerId := peerId, kyberPk := none
            falconPk := some hex, encSharedKey := none, iv := none, salt := none }))

/-- `getFalconPeerKey(peerId)`: the first `peers` record with this `peerId`;
`null` when the record is missing or carries no `falconPk`. -/
def getFalconPeerKey (peers : List PeerRow) (peerId : String) : Option Bytes :=
  match peersFirstByPeerId peers peerId with
  | none => none
  | some row =>
    match row.falconPk with
    | none => none
    | some hx => some (hexToArrayBuffer hx)

/-! ## cryptomanager.js -/

/-- The ML-KEM-768 operations of `crystals-kyber-js`, abstracted: `encap` takes
the peer public key and the encapsulation randomness and yields
`(ciphertext, sharedSecret)`; `decap` recovers the shared secret from the
ciphertext and the secret key; `correct` is the KEM correctness law for
matching keypairs. -/
structure KEM where
  encap : Bytes → Bytes → Bytes × Bytes
  decap : Bytes → Bytes → Bytes
  IsKeyPair : Bytes → Bytes → Prop
  correct : ∀ pk sk r, IsKeyPair pk sk → decap (encap pk r).1 sk = (encap pk r).2

/-- The Falcon detached-signature operations of `falcon-crypto`, abstracted. -/
structure Sig where
  sign : Bytes → Bytes → Bytes
  verify : Bytes → Bytes → Bytes → Bool

/-- The mutable `useRef` state of `useCrypto` (the fields the verified claims
touch). The in-memory AES key cache maps a peer id to the raw imported key
bytes. -/
structure CryptoState where
  userId : String
  kyberPk : Bytes
  kyberSk : Bytes
  falconPk : Bytes
  falconSk : Bytes
  sharedSecrets : List (String × Bytes)
  aesKeys : List (String × Bytes)
deriving DecidableEq, Repr

/-- Assoc-list lookup (JS object property read). -/
def lookupAssoc {α : Type} (l : List (String × α)) (k : String) : Option α :=
  (l.find? (fun e => e.1 = k)).map (fun e => e.2)

/-- Assoc-list update-or-insert (JS object property write). -/
def setAssoc {α : Type} (l : List (String × α)) (k : String) (v : α) :
    List (String × α) :=
  if l.any (fun e => e.1 = k) then
    l.map (fun e => if e.1 = k then (k, v) else e)
  else
    l ++ [(k, v)]

/-- The hard-coded passphrase of cryptomanager.js. -/
def userPassphrase : String := "user-passphrase"

/-- The body of the per-peer `try` block of `loadPeerMessages`: rehydrate the
shared secret from the persisted record (`importKey` on a `null` secret throws
a TypeError) and decrypt the whole history with it. -/
def restorePeer (kdf : Kdf) (db : DB) (userId peerId : String) :
    Except Err (List RestoredMsg) := do
  match ← deriveStoredSharedKey kdf db userId peerId userPassphrase with
  | none => .error .typeError
  | some ss => loadMessages db userId peerId ss

/-- One iteration of the `loadPeerMessages` loop: the per-peer `try`/`catch`,
degrading that peer's history to `[]` on any failure. -/
def restoreOrEmpty (kdf : Kdf) (db : DB) (userId peerId : String) :
    List RestoredMsg :=
  match restorePeer kdf db userId peerId with
  | .ok msgs => msgs
  | .error _ => []

/-- `loadPeerMessages(userId)`: iterate over this user's `peers` records; each
peer's restore is wrapped in its own `try`/`catch` (`restoreOrEmpty`) — the
function itself never throws. -/
def loadPeerMessages (kdf : Kdf) (db : DB) (userId : String) :
    List (String × List RestoredMsg) :=
  (peersByUserId db.peers userId).foldl
    (fun acc row => setAssoc acc row.peerId (restoreOrEmpty kdf db userId row.peerId))
    []

/-- `establishSharedSecret(peerId, peerKyberPkArray)` (responder side): KEM
encapsulation against the peer public key; the raw shared secret is stored in
memory and imported **directly** as the AES-GCM session key (raw import, no
KDF); the peer record is persisted via `addPeer` together with any Falcon key
already on file. `getFalconPeerKey` cannot throw in this model and `addPeer`
cannot fail on the KEM's nonempty secrets, so the catch-and-retry-without-
falcon branch of the source is unreachable and omitted. The encapsulation
randomness, record salt and record IV are explicit arguments. -/
def establishSharedSecret (K : KEM) (kdf : Kdf) (st : CryptoState) (db : DB)
    (peerId : String) (peerKyberPk : Bytes) (r salt iv : Bytes) :
    Except Err (Bytes × CryptoState × DB) := do
  let (ct, ss) := K.encap peerKyberPk r
  let st := { st with sharedSecrets := setAssoc st.sharedSecrets peerId ss
                      aesKeys := setAssoc st.aesKeys peerId ss }
  let storedFalcon := getFalconPeerKey db.peers peerId
  let db ← addPeer kdf db st.userId peerId peerKyberPk ss userPassphrase salt iv
    (storedFalcon.map .bytes)
  .ok (ct, st, db)

/-- `decapsulate(peerId, ctArray, peerKyberPkArray)` (requester side): KEM
decapsulation with the own secret key; the raw shared secret is stored in
memory and imported **directly** as the AES-GCM session key; the peer record is
persisted via `addPeer`. -/
def decapsulate (K : KEM) (kdf : Kdf) (st : CryptoState) (db : DB)
    (peerId : String) (ctArr : Bytes) (peerKyberPk : Bytes) (salt iv : Bytes) :
    Except Err (CryptoState × DB) := do
  let ss := K.decap ctArr st.kyberSk
  let st := { st with sharedSecrets := setAssoc st.sharedSecrets peerId ss
                      aesKeys := setAssoc st.aesKeys peerId ss }
  let storedFalcon := getFalconPeerKey db.peers peerId
  let db ← addPeer kdf db st.userId peerId peerKyberPk ss userPassphrase salt iv
    (storedFalcon.map .bytes)
  .ok (st, db)

/-- `encryptAES(text, peerId)`: with no in-memory session key, first attempt
lazy rehydration from the persisted record; a missing record throws
"Shared secret missing — cannot restore AES key" and no ciphertext is
produced.  Returns the `{ciphertext, iv}` payload and the state (whose key
cache may have been filled). -/
def encryptAES (kdf : Kdf) (st : CryptoState) (db : DB) (text : String)
    (peerId : String) (ivEnc : Bytes) : Except Err ((GcmCt × Bytes) × CryptoState) := do
  match lookupAssoc st.aesKeys peerId with
  | some key =>
    .ok ((subtleEncrypt key ivEnc (strBytes text), ivEnc), st)
  | none =>
    match ← deriveStoredSharedKey kdf db st.userId peerId userPassphrase with
    | none => .error .sharedSecretMissing
    | some ss =>
      let st := { st with aesKeys := setAssoc st.aesKeys peerId ss }
      .ok ((subtleEncrypt ss ivEnc (strBytes text), ivEnc), st)

/-- `decryptAES(ciphertextArray, ivArray, peerId)`: rehydrate the session key
if needed (`importKey` on a `null` rehydrated secret throws), decrypt, and —
**before any signature check by the caller** — persist the decrypted plaintext
to the `messages` table via `storeMessage`.  The mutated state and database
are returned even when an error is thrown (the `useRef` state and IndexedDB
survive the throw). -/
def decryptAES (kdf : Kdf) (st : CryptoState) (db : DB) (ct : GcmCt) (iv : Bytes)
    (peerId : String) (now : Nat) (msgIv : Bytes) :
    Except Err String × CryptoState × DB :=
  let keyAcq : Except Err (Bytes × CryptoState) :=
    match lookupAssoc st.aesKeys peerId with
    | some key => .ok (key, st)
    | none =>
      match deriveStoredSharedKey kdf db st.userId peerId userPassphrase with
      | .error e => .error e
      | .ok none => .error .typeError
      | .ok (some ss) =>
        .ok (ss, { st with aesKeys := setAssoc st.aesKeys peerId ss })
  match keyAcq with
  | .error e => (.error e, st, db)
  | .ok (key, st) =>
    match subtleDecrypt key iv ct with
    | none => (.error .authFailure, st, db)
    | some pt =>
      (.ok (bytesStr pt), st,
        storeMessage db st.userId peerId "incoming" (bytesStr pt) key now msgIv)

/-- `signMessage(msg)`: detached Falcon signature over the encoded text with
the local signature secret key. -/
def signMessage (S : Sig) (st : CryptoState) (msg : String) : Bytes :=
  S.sign (strBytes msg) st.falconSk

/-- `verifyMessage(msg, sig, pk)`. -/
def verifyMessage (S : Sig) (msg : String) (sig : Bytes) (pk : Bytes) : Bool :=
  S.verify sig (strBytes msg) pk

/-- One `{type: "chat", ...}` frame handed to `socket.send`. -/
structure WireMsg where
  toId : String
  payload : GcmCt × Bytes
  signature : Bytes
  fromId : String
deriving DecidableEq, Repr

/-- `JSON.stringify(payload)` for the `{ciphertext, iv}` envelope — an
injective serialization, abstracted as a parameter. -/
abbrev PayloadEnc := GcmCt → Bytes → String

/-- `sendMessage(socket, peerId, text, fromUserId)`: encrypt (which throws when
no session exists), sign the serialized envelope, emit the frame, then persist
the outgoing message.  A throw in `encryptAES` aborts everything: nothing is
sent and nothing is persisted. -/
def sendMessage (S : Sig) (kdf : Kdf) (enc : PayloadEnc) (st : CryptoState)
    (db : DB) (sent : List WireMsg) (peerId text fromUserId : String)
    (ivEnc : Bytes) (now : Nat) (msgIv : Bytes) :
    Except Err (CryptoState × DB × List WireMsg) := do
  let (payload, st) ← encryptAES kdf st db text peerId ivEnc
  let signature := signMessage S st (enc payload.1 payload.2)
  let sent := sent ++ [{ toId := peerId, payload := payload
                         signature := signature, fromId := fromUserId }]
  match lookupAssoc st.aesKeys peerId with
  | some key =>
    .ok (st, storeMessage db fromUserId peerId "outgoing" text key now msgIv, sent)
  | none => .error .typeError

/-! ## ChatPage.jsx: the incoming `chat` handler

The handler closure captures the `falconPeerKey` React state at subscription
time.  `setFalconPeerKey` schedules an update for future events but does not
change the captured binding, so within one event the later
`falconPeerKey[data.from]` read still sees the pre-event map.  The guard at the
top looks up the key of the **active** peer (`activePeer`), not of the claimed
sender (`data.from`). -/

/-- The React page state the chat branch touches. `falconPeerKey` merges the
JS distinction between an absent property and one explicitly set to `null`
(both are falsy and both make `verifyDetached` fail); `messagesUI` is the
displayed per-peer history. -/
structure PageState where
  falconPeerKey : List (String × Bytes)
  activePeer : String
  messagesUI : List (String × List (String × String))
  cry : CryptoState
deriving DecidableEq, Repr

/-- An incoming `{type: "chat"}` frame: claimed sender, `{ciphertext, iv}`
payload and detached signature. -/
structure ChatMsgIn where
  sender : String
  ctxt : GcmCt
  iv : Bytes
  signature : Bytes
deriving DecidableEq, Repr

/-- The `data.type === "chat"` branch of the WebSocket handler:
1. look up the **active** peer's Falcon key in the captured state, else fetch
   it from the DB (caching it for future events); bail out if still absent;
2. `decryptAES(ciphertext, iv, data.from)` — which **persists** the decrypted
   message to the `messages` table before any signature check; a throw is
   caught and ends processing (mutations made so far survive);
3. verify the signature over the serialized payload with
   `falconPeerKey[data.from]` from the **captured** (pre-event) state; on a
   missing key `verifyDetached` rejects or throws — either way no message is
   displayed, modelled as a failed verification;
4. only if verification succeeds, append the decrypted text to the displayed
   history. -/
def handleChat (S : Sig) (kdf : Kdf) (enc : PayloadEnc) (ps : PageState)
    (db : DB) (m : ChatMsgIn) (now : Nat) (msgIv : Bytes) : PageState × DB :=
  let key0 := lookupAssoc ps.falconPeerKey ps.activePeer
  let fetched := match key0 with
    | some k => some k
    | none => getFalconPeerKey db.peers ps.activePeer
  let ps1 := match key0 with
    | some _ => ps
    | none =>
      match fetched with
      | some k => { ps with falconPeerKey := setAssoc ps.falconPeerKey ps.activePeer k }
      | none => ps
  match fetched with
  | none => (ps1, db)
  | some _ =>
    match decryptAES kdf ps1.cry db m.ctxt m.iv m.sender now msgIv with
    | (.error _, cry1, db1) => ({ ps1 with cry := cry1 }, db1)
    | (.ok decrypted, cry1, db1) =>
      let ps2 := { ps1 with cry := cry1 }
      let isValid := match lookupAssoc ps.falconPeerKey m.sender with
        | some pk => verifyMessage S (enc m.ctxt m.iv) m.signature pk
        | none => false
      if isValid then
        let prior := (lookupAssoc ps2.messagesUI m.sender).getD []
        ({ ps2 with messagesUI :=
            setAssoc ps2.messagesUI m.sender (prior ++ [(m.sender, decrypted)]) }, db1)
      else
        (ps2, db1)

/-- Total number of persisted messages of a conversation — the "conversation
history length" of the spec scenario. -/
def historyLen (db : DB) (userId peerId : String) : Nat :=
  (db.messages.filter (fun r => r.userId = userId ∧ r.peerId = peerId)).length


/-! ## Helper lemmas about the assoc-list and table primitives -/

theorem lookupAssoc_cons {α : Type} (e : String × α) (l : List (String × α))
    (k' : String) :
    lookupAssoc (e :: l) k' = if e.1 = k' then some e.2 else lookupAssoc l k' := by
  by_cases h : e.1 = k' <;> simp [lookupAssoc, List.find?_cons, h]

theorem lookupAssoc_map_replace {α : Type} (l : List (String × α)) (k : String)
    (v : α) (k' : String) :
    lookupAssoc (l.map (fun e => if e.1 = k then (k, v) else e)) k'
      = if k' = k then (if l.any (fun e => e.1 = k) then some v else none)
        else lookupAssoc l k' := by
  induction l with
  | nil => by_cases hk : k' = k <;> simp [lookupAssoc, hk]
  | cons e rest ih =>
    by_cases he : e.1 = k <;> by_cases hk : k' = k
    · simp [lookupAssoc_cons, he, hk, ih, List.any_cons]
    · have hk' : ¬ (k = k') := fun h => hk h.symm
      simp [lookupAssoc_cons, he, hk, ih, List.any_cons, hk']
    · subst hk
      have hd : decide (e.1 = k') = false := by simp [he]
      rw [List.map_cons, if_neg he, lookupAssoc_cons, if_neg he, ih, if_pos rfl,
        List.any_cons, hd, Bool.false_or]
      simp
    · simp [lookupAssoc_cons, he, hk, ih, List.any_cons]

theorem lookupAssoc_append_single {α : Type} (l : List (String × α))
    (k k' : String) (v : α) :
    lookupAssoc (l ++ [(k, v)]) k'
      = match lookupAssoc l k' with
        | some w => some w
        | none => if k = k' then some v else none := by
  induction l with
  | nil => by_cases h : k = k' <;> simp [lookupAssoc, List.find?, h]
  | cons e rest ih =>
    by_cases he : e.1 = k' <;> simp [lookupAssoc_cons, he, ih, List.cons_append]

theorem lookupAssoc_eq_none_of_not_any {α : Type} (l : List (String × α))
    (k : String) (h : l.any (fun e => e.1 = k) = false) :
    lookupAssoc l k = none := by
  induction l with
  | nil => rfl
  | cons e rest ih =>
    simp only [List.any_cons, Bool.or_eq_false_iff] at h
    have he : ¬ (e.1 = k) := by simpa using h.1
    simp [lookupAssoc_cons, he, ih h.2]

theorem lookupAssoc_setAssoc {α : Type} (l : List (String × α)) (k k' : String)
    (v : α) :
    lookupAssoc (setAssoc l k v) k'
      = if k' = k then some v else lookupAssoc l k' := by
  unfold setAssoc
  by_cases hany : l.any (fun e => e.1 = k)
  · simp [hany, lookupAssoc_map_replace]
  · rw [if_neg hany, lookupAssoc_append_single]
    have hfalse : l.any (fun e => e.1 = k) = false := by
      cases h : l.any (fun e => e.1 = k) with
      | false => rfl
      | true => exact absurd h hany
    have hnone := lookupAssoc_eq_none_of_not_any l k hfalse
    by_cases hk : k' = k
    · subst hk; simp [hnone]
    · have : ¬ (k = k') := fun h => hk h.symm
      cases hl : lookupAssoc l k' <;> simp [this, hk]

theorem lookupAssoc_setAssoc_self {α : Type} (l : List (String × α))
    (k : String) (v : α) :
    lookupAssoc (setAssoc l k v) k = some v := by
  simp [lookupAssoc_setAssoc]

theorem identityGet_cons (r : IdentityRow) (l : List IdentityRow) (u : String) :
    identityGet (r :: l) u = if r.userId = u then some r else identityGet l u := by
  by_cases h : r.userId = u <;> simp [identityGet, List.find?_cons, h]

theorem identityGet_map_replace (l : List IdentityRow) (row : IdentityRow) :
    identityGet (l.map (fun r => if r.userId = row.userId then row else r))
      row.userId
      = if l.any (fun r => r.userId = row.userId) then some row else none := by
  induction l with
  | nil => simp [identityGet]
  | cons r rest ih =>
    by_cases he : r.userId = row.userId
    · simp [identityGet_cons, he, List.any_cons]
    · have hd : decide (r.userId = row.userId) = false := by simp [he]
      rw [List.map_cons, if_neg he, identityGet_cons, if_neg he, ih,
        List.any_cons, hd, Bool.false_or]

theorem identityGet_append_single (l : List IdentityRow) (row : IdentityRow)
    (u : String) :
    identityGet (l ++ [row]) u
      = match identityGet l u with
        | some w => some w
        | none => if row.userId = u then some row else none := by
  induction l with
  | nil => by_cases h : row.userId = u <;> simp [identityGet, List.find?, h]
  | cons r rest ih =>
    by_cases he : r.userId = u <;> simp [identityGet_cons, he, ih, List.cons_append]

theorem identityGet_eq_none_of_not_any (l : List IdentityRow) (u : String)
    (h : l.any (fun r => r.userId = u) = false) :
    identityGet l u = none := by
  induction l with
  | nil => rfl
  | cons r rest ih =>
    simp only [List.any_cons, Bool.or_eq_false_iff] at h
    have he : ¬ (r.userId = u) := by simpa using h.1
    simp [identityGet_cons, he, ih h.2]

theorem identityGet_identityPut_self (l : List IdentityRow) (row : IdentityRow) :
    identityGet (identityPut l row) row.userId = some row := by
  unfold identityPut
  by_cases hany : l.any (fun r => r.userId = row.userId)
  · simp [hany, identityGet_map_replace]
  · have hfalse : l.any (fun r => r.userId = row.userId) = false := by
      cases h : l.any (fun r => r.userId = row.userId) with
      | false => rfl
      | true => exact absurd h hany
    rw [if_neg hany, identityGet_append_single,
      identityGet_eq_none_of_not_any l _ hfalse]
    simp

theorem countP_map_replace (l : List IdentityRow) (row : IdentityRow)
    (u : String) (hrow : row.userId = u) :
    (l.map (fun r => if r.userId = u then row else r)).countP
        (fun r => decide (r.userId = u))
      = l.countP (fun r => decide (r.userId = u)) := by
  induction l with
  | nil => rfl
  | cons r rest ih =>
    by_cases he : r.userId = u <;>
      simp [List.countP_cons, he, hrow, ih]

theorem countP_identityPut (l : List IdentityRow) (row : IdentityRow)
    (h : l.countP (fun r => decide (r.userId = row.userId)) ≤ 1) :
    (identityPut l row).countP (fun r => decide (r.userId = row.userId)) = 1 := by
  unfold identityPut
  by_cases hany : l.any (fun r => r.userId = row.userId)
  · rw [if_pos hany, countP_map_replace l row row.userId rfl]
    have hpos : 0 < l.countP (fun r => decide (r.userId = row.userId)) := by
      rw [List.countP_pos_iff]
      obtain ⟨r, hr, hp⟩ := List.any_eq_true.mp hany
      exact ⟨r, hr, hp⟩
    omega
  · have hfalse : l.any (fun r => r.userId = row.userId) = false := by
      cases hh : l.any (fun r => r.userId = row.userId) with
      | false => rfl
      | true => exact absurd hh hany
    have hzero : l.countP (fun r => decide (r.userId = row.userId)) = 0 := by
      rw [List.countP_eq_zero]
      intro r hr
      have := (List.any_eq_false).mp hfalse r hr
      simpa using this
    rw [if_neg hany, List.countP_append, hzero]
    simp [List.countP_cons]

/-! ## Concrete instances of the platform primitives (used in witnesses and
concrete evaluations)

`toyKdf` is an injective stand-in for PBKDF2 (for a fixed salt, distinct
passphrases yield distinct keys — the ideal-KDF assumption); `toyKEM` is a
correct toy KEM whose shared secret is the encapsulation randomness;
`toySigReject` rejects everything, standing for Falcon verification of a
corrupted signature; `toyEnc` is a payload serializer. -/

def toyKdf : Kdf := fun pass salt => strBytes pass ++ salt

def toyKEM : KEM where
  encap := fun pk r => (pk ++ r, r)
  decap := fun ct sk => ct.drop sk.length
  IsKeyPair := fun pk sk => sk = pk
  correct := by
    intro pk sk r h
    subst h
    simp

def toySigReject : Sig where
  sign := fun m sk => m ++ sk
  verify := fun _ _ _ => false

def toyEnc : PayloadEnc := fun _ _ => "payload"

/-- An empty database (auto-increment counters start at 1, as in Dexie). -/
def emptyDB : DB := { identity := [], messages := [], peers := [], nextPeerId := 1 }

/-! ## Concrete scenarios for the receive-path claims -/

/-- The established session key Bob shares with Alice in the scenarios. -/
def ssAB : Bytes := [10, 20]

/-- Alice's Falcon public key as stored on Bob's device. -/
def pkAlice : Bytes := [5, 6]

/-- Bob's in-memory crypto state with an established session for Alice. -/
def cryBob : CryptoState :=
  { userId := "bob", kyberPk := [], kyberSk := [], falconPk := [], falconSk := [1]
    sharedSecrets := [("alice", ssAB)], aesKeys := [("alice", ssAB)] }

/-- Bob's page state: Alice is the active peer and her Falcon key is cached in
the captured React state. -/
def psC1 : PageState :=
  { falconPeerKey := [("alice", pkAlice)], activePeer := "alice"
    messagesUI := [], cry := cryBob }

/-- An incoming chat envelope from Alice whose ciphertext is genuine but whose
signature is corrupted (byte-flipped), so Falcon verification rejects it
(`toySigReject`). -/
def chatC1 : ChatMsgIn :=
  { sender := "alice", ctxt := subtleEncrypt ssAB [9] (strBytes "hi")
    iv := [9], signature := [0] }

/-- Claim C1 (code bug): a chat envelope with a byte-flipped signature is
indeed not displayed, but the receiver persists it anyway — `decryptAES` calls
`storeMessage` before the handler verifies the signature, so the persisted
conversation history grows from 0 to 1 instead of staying unchanged as the
spec requires. -/
theorem chat_handler_persists_on_bad_signature :
    historyLen (handleChat toySigReject toyKdf toyEnc psC1 emptyDB chatC1 100 [7]).2
        "bob" "alice" = 1
    ∧ historyLen emptyDB "bob" "alice" = 0
    ∧ lookupAssoc (handleChat toySigReject toyKdf toyEnc psC1 emptyDB chatC1
        100 [7]).1.messagesUI "alice" = none := by
  decide

/-- Decidable equality of `Except` results, for concrete evaluation. -/
instance {ε α : Type} [DecidableEq ε] [DecidableEq α] : DecidableEq (Except ε α) :=
  fun a b =>
    match a, b with
    | .ok x, .ok y =>
      if h : x = y then .isTrue (by rw [h])
      else .isFalse (fun hh => h (Except.ok.inj hh))
    | .error x, .error y =>
      if h : x = y then .isTrue (by rw [h])
      else .isFalse (fun hh => h (Except.error.inj hh))
    | .ok _, .error _ => .isFalse (fun hh => Except.noConfusion hh)
    | .error _, .ok _ => .isFalse (fun hh => Except.noConfusion hh)

/-- Claim C2 (code bug): running session persistence twice for the same
`(userId, peerId)` pair appends a second `peers` record (the `[userId+peerId]`
index is not unique and `addPeer` uses `add`, not `put`), and the subsequent
session-key lookup `deriveStoredSharedKey` takes `first()` — the **oldest**
record — so it returns the secret of the first establishment, not the latest.
-/
theorem addPeer_duplicates_and_first_establishment_wins :
    ((addPeer toyKdf emptyDB "bob" "alice" [5] [10, 20] userPassphrase [2] [3]
          none).bind
        (fun d => addPeer toyKdf d "bob" "alice" [5] [30, 40] userPassphrase
          [4] [6] none)).map
      (fun d =>
        ((d.peers.filter (fun r => r.userId = some "bob" ∧ r.peerId = "alice")).length,
          deriveStoredSharedKey toyKdf d "bob" "alice" userPassphrase))
      = .ok (2, .ok (some [10, 20]))
    ∧ ([10, 20] : Bytes) ≠ [30, 40] := by
  decide

/-- The established session key Bob shares with Carl. -/
def ssBC : Bytes := [11, 22]

/-- Bob's in-memory crypto state with an established session for Carl (but no
Falcon key for Carl anywhere). -/
def cryBobC3 : CryptoState :=
  { userId := "bob", kyberPk := [], kyberSk := [], falconPk := [], falconSk := [1]
    sharedSecrets := [("carl", ssBC)], aesKeys := [("carl", ssBC)] }

/-- Bob's page state while chatting with Alice: Alice is active and her key is
cached; Carl has no signature key on file. -/
def psC3 : PageState :=
  { falconPeerKey := [("alice", pkAlice)], activePeer := "alice"
    messagesUI := [], cry := cryBobC3 }

/-- An incoming chat envelope claiming to be from Carl, for whom no signature
public key is on file. -/
def chatC3 : ChatMsgIn :=
  { sender := "carl", ctxt := subtleEncrypt ssBC [9] (strBytes "hey")
    iv := [9], signature := [0] }

/-- Claim C3 (code bug): the handler guards on the Falcon key of the currently
**active** peer, not of the claimed sender. With Alice active (key on file), a
message claiming to come from Carl — who has no signature key on file — passes
the guard, is decrypted and persisted to history by `decryptAES`, and only then
fails verification; the spec requires it to be rejected with nothing persisted.
-/
theorem chat_handler_persists_unknown_signer :
    getFalconPeerKey emptyDB.peers "carl" = none
    ∧ lookupAssoc psC3.falconPeerKey "carl" = none
    ∧ historyLen (handleChat toySigReject toyKdf toyEnc psC3 emptyDB chatC3
        100 [7]).2 "bob" "carl" = 1
    ∧ historyLen emptyDB "bob" "carl" = 0
    ∧ lookupAssoc (handleChat toySigReject toyKdf toyEnc psC3 emptyDB chatC3
        100 [7]).1.messagesUI "carl" = none := by
  decide

/-! ## Claim C7: peer signature-key validation bounds -/

/-- Whether a thrown-vs-returned result succeeded. -/
def exceptOk {ε α : Type} : Except ε α → Bool
  | .ok _ => true
  | .error _ => false

/-- Modelled from the claim's words: the decoded byte length of a key input —
the array length for byte-shaped input, the number of digit pairs for a
well-formed (even-length, all-hex-digit, `0x`-stripped) hex string, and `none`
for malformed hex. -/
def specDecodedByteLen : KeyInput → Option Nat
  | .bytes b => some b.length
  | .hex s =>
    let c := strip0x s
    if c.length % 2 = 0 ∧ isHexString c then some (c.length / 2) else none

/-- Modelled from the claim's words: acceptance = the decoded byte length
exists and lies in the inclusive range [16, 8192]. -/
def specAccepts (ki : KeyInput) : Bool :=
  match specDecodedByteLen ki with
  | some n => decide (16 ≤ n ∧ n ≤ 8192)
  | none => false

theorem validateFalcon_eq_specAccepts (ki : KeyInput) :
    validateFalconPublicKey ki = specAccepts ki := by
  cases ki with
  | bytes b => rfl
  | hex s =>
    by_cases hempty : s.isEmpty
    · have hnil : s = [] := List.isEmpty_iff.mp hempty
      subst hnil
      rfl
    · by_cases heven : (strip0x s).length % 2 = 0
      · by_cases hhex : isHexString (strip0x s)
        · simp [validateFalconPublicKey, specAccepts, specDecodedByteLen,
            keyInputFalsy, hempty, heven, hhex]
        · simp [validateFalconPublicKey, specAccepts, specDecodedByteLen,
            keyInputFalsy, hempty, heven, hhex]
      · simp [validateFalconPublicKey, specAccepts, specDecodedByteLen,
          keyInputFalsy, hempty, heven]

/-- Claim C7: `storeFalconPeerKey` accepts a peer signature public key exactly
when its decoded byte length lies in the inclusive range [16, 8192]; odd-length
or non-hex strings have no decoded length and are rejected. -/
theorem storeFalconPeerKey_accepts_iff (db : DB) (p : String) (ki : KeyInput)
    (hp : p.isEmpty = false) :
    exceptOk (storeFalconPeerKey db p (some ki)) = specAccepts ki := by
  rw [← validateFalcon_eq_specAccepts]
  unfold storeFalconPeerKey
  by_cases hf : keyInputFalsy ki
  · have hv : validateFalconPublicKey ki = false := by
      unfold validateFalconPublicKey
      simp [hf]
    simp [hp, hf, hv, exceptOk]
  · by_cases hv : validateFalconPublicKey ki
    · cases hfind : peersFirstByPeerId db.peers p <;>
        simp [hp, hf, hv, hfind, exceptOk]
    · have hv' : validateFalconPublicKey ki = false := by
        cases h : validateFalconPublicKey ki with
        | false => rfl
        | true => exact absurd h hv
      simp [hp, hf, hv', exceptOk]

/-- Witness for C7: a non-empty peer id; a 16-byte key at the lower boundary is
accepted, a 15-byte key and an odd-length hex string are rejected. -/
theorem storeFalconPeerKey_accepts_iff_witness :
    ("peer1" : String).isEmpty = false
    ∧ exceptOk (storeFalconPeerKey emptyDB "peer1"
        (some (.bytes (List.replicate 16 0)))) = specAccepts (.bytes (List.replicate 16 0))
    ∧ specAccepts (.bytes (List.replicate 16 0)) = true
    ∧ exceptOk (storeFalconPeerKey emptyDB "peer1"
        (some (.bytes (List.replicate 15 0)))) = false
    ∧ exceptOk (storeFalconPeerKey emptyDB "peer1"
        (some (.hex ('a' :: bufToHex (List.replicate 16 0))))) = false :=
  ⟨by decide,
   storeFalconPeerKey_accepts_iff emptyDB "peer1" _ (by decide),
   by decide, by decide, by decide⟩

/-! ## Claim C5: AEAD roundtrip and authentication -/

/-- Claim C5: for every key and (nonempty, byte-valued) plaintext, `aesEncrypt`
followed by `aesDecrypt` under the same key and the IV produced by that
encryption returns exactly the plaintext; decryption under a different key or a
different IV fails with the authentication error, and so does decryption of a
garbled (bit-flipped) ciphertext — no partial or unauthenticated plaintext is
ever returned. -/
theorem aes_roundtrip_and_auth (key iv m key2 iv2 : Bytes) (c : GcmCt)
    (hm : ∀ b ∈ m, b < 256) (hne : m ≠ []) (hk2 : key2 ≠ key) (hiv2 : iv2 ≠ iv) :
    aesEncrypt key (bufToHex m) iv = .ok (iv, subtleEncrypt key iv m)
    ∧ aesDecrypt key iv (subtleEncrypt key iv m) = .ok (bufToHex m)
    ∧ aesDecrypt key2 iv (subtleEncrypt key iv m) = .error .authFailure
    ∧ aesDecrypt key iv2 (subtleEncrypt key iv m) = .error .authFailure
    ∧ aesDecrypt key iv (GcmCt.garbled c) = .error .authFailure := by
  have hks : ¬ (key = key2) := fun h => hk2 h.symm
  have hivs : ¬ (iv = iv2) := fun h => hiv2 h.symm
  refine ⟨?_, ?_, ?_, ?_, ?_⟩
  · simp [aesEncrypt, hexToBuf_bufToHex hm hne]
  · simp [aesDecrypt, subtleDecrypt, subtleEncrypt]
  · simp [aesDecrypt, subtleDecrypt, subtleEncrypt, hks]
  · simp [aesDecrypt, subtleDecrypt, subtleEncrypt, hivs]
  · rfl

/-- Witness for C5 at concrete key `[1]`, IV `[2]`, plaintext `[3]`. -/
theorem aes_roundtrip_and_auth_witness :
    (∀ b ∈ ([3] : Bytes), b < 256) ∧ ([3] : Bytes) ≠ []
    ∧ ([9] : Bytes) ≠ [1] ∧ ([8] : Bytes) ≠ [2]
    ∧ (aesEncrypt [1] (bufToHex [3]) [2] = .ok ([2], subtleEncrypt [1] [2] [3])
       ∧ aesDecrypt [1] [2] (subtleEncrypt [1] [2] [3]) = .ok (bufToHex [3])
       ∧ aesDecrypt [9] [2] (subtleEncrypt [1] [2] [3]) = .error .authFailure
       ∧ aesDecrypt [1] [8] (subtleEncrypt [1] [2] [3]) = .error .authFailure
       ∧ aesDecrypt [1] [2] (GcmCt.garbled (subtleEncrypt [1] [2] [3]))
           = .error .authFailure) :=
  ⟨by decide, by decide, by decide, by decide,
   aes_roundtrip_and_auth [1] [2] [3] [9] [8] (subtleEncrypt [1] [2] [3])
     (by decide) (by decide) (by decide) (by decide)⟩

/-! ## Claim C4: one handshake, one shared secret, no extra KDF -/

theorem addPeer_ok (kdf : Kdf) (db : DB) (u p : String) (pk ss : Bytes)
    (pass : String) (salt iv0 : Bytes) (fal : Option KeyInput)
    (hss : ∀ b ∈ ss, b < 256) (hne : ss ≠ []) :
    addPeer kdf db u p pk ss pass salt iv0 fal
      = .ok (peersAdd db (fun i =>
          { id := i
            userId := some u
            peerId := p
            kyberPk := some pk
            falconPk := addPeerFalconField fal
            encSharedKey := some (subtleEncrypt (kdf pass salt) iv0 ss)
            iv := some (arrayBufferToHex iv0)
            salt := some (arrayBufferToHex salt) })) := by
  simp [addPeer, aesEncrypt, hexToBuf_bufToHex hss hne, Bind.bind, Except.bind]

theorem establishSharedSecret_state (K : KEM) (kdf : Kdf) (st : CryptoState)
    (db : DB) (peerId : String) (pk r salt iv : Bytes) (ct : Bytes)
    (st2 : CryptoState) (db2 : DB)
    (hss : ∀ b ∈ (K.encap pk r).2, b < 256) (hne : (K.encap pk r).2 ≠ [])
    (h : establishSharedSecret K kdf st db peerId pk r salt iv = .ok (ct, st2, db2)) :
    ct = (K.encap pk r).1
    ∧ st2.sharedSecrets = setAssoc st.sharedSecrets peerId (K.encap pk r).2
    ∧ st2.aesKeys = setAssoc st.aesKeys peerId (K.encap pk r).2 := by
  unfold establishSharedSecret at h
  rcases hE : K.encap pk r with ⟨ct0, ss0⟩
  rw [hE] at h hss hne
  dsimp only at h hss hne ⊢
  rw [addPeer_ok kdf db st.userId peerId pk ss0 userPassphrase salt iv
      ((getFalconPeerKey db.peers peerId).map .bytes) hss hne] at h
  simp only [Bind.bind, Except.bind] at h
  injection h with h1
  injection h1 with hct h23
  injection h23 with hst hdb
  refine ⟨hct.symm, ?_, ?_⟩
  · rw [← hst]
  · rw [← hst]

theorem decapsulate_state (K : KEM) (kdf : Kdf) (st : CryptoState) (db : DB)
    (peerId : String) (ctArr pk salt iv : Bytes) (st2 : CryptoState) (db2 : DB)
    (hss : ∀ b ∈ K.decap ctArr st.kyberSk, b < 256)
    (hne : K.decap ctArr st.kyberSk ≠ [])
    (h : decapsulate K kdf st db peerId ctArr pk salt iv = .ok (st2, db2)) :
    st2.sharedSecrets = setAssoc st.sharedSecrets peerId (K.decap ctArr st.kyberSk)
    ∧ st2.aesKeys = setAssoc st.aesKeys peerId (K.decap ctArr st.kyberSk) := by
  unfold decapsulate at h
  dsimp only at h
  rw [addPeer_ok kdf db st.userId peerId pk (K.decap ctArr st.kyberSk)
      userPassphrase salt iv
      ((getFalconPeerKey db.peers peerId).map .bytes) hss hne] at h
  simp only [Bind.bind, Except.bind] at h
  injection h with h1
  injection h1 with hst hdb
  exact ⟨by rw [← hst], by rw [← hst]⟩

/-- Claim C4: for a matching KEM keypair, one handshake gives both parties the
identical shared secret — the responder's `establishSharedSecret` (KEM
encapsulation) and the requester's `decapsulate` on the produced ciphertext
store the very same secret — and on both sides that raw secret itself is the
AES-GCM session key placed in the key cache (raw `importKey`, no additional
key-derivation step). -/
theorem kem_establish_decap_same_key_no_kdf
    (K : KEM) (kdf : Kdf) (stR stQ : CryptoState) (dbR dbQ : DB)
    (peerR peerQ : String) (pk sk r saltR ivR saltQ ivQ : Bytes)
    (ct : Bytes) (stR2 : CryptoState) (dbR2 : DB)
    (stQ2 : CryptoState) (dbQ2 : DB)
    (hkp : K.IsKeyPair pk sk)
    (hsk : stQ.kyberSk = sk)
    (hss : ∀ b ∈ (K.encap pk r).2, b < 256)
    (hne : (K.encap pk r).2 ≠ [])
    (hResp : establishSharedSecret K kdf stR dbR peerR pk r saltR ivR
      = .ok (ct, stR2, dbR2))
    (hReq : decapsulate K kdf stQ dbQ peerQ ct pk saltQ ivQ = .ok (stQ2, dbQ2)) :
    lookupAssoc stR2.sharedSecrets peerR = some (K.encap pk r).2
    ∧ lookupAssoc stR2.aesKeys peerR = some (K.encap pk r).2
    ∧ lookupAssoc stQ2.sharedSecrets peerQ = some (K.encap pk r).2
    ∧ lookupAssoc stQ2.aesKeys peerQ = some (K.encap pk r).2 := by
  obtain ⟨hct, hRs, hRk⟩ :=
    establishSharedSecret_state K kdf stR dbR peerR pk r saltR ivR ct stR2 dbR2
      hss hne hResp
  have hdecap : K.decap ct stQ.kyberSk = (K.encap pk r).2 := by
    rw [hct, hsk]
    exact K.correct pk sk r hkp
  obtain ⟨hQs, hQk⟩ :=
    decapsulate_state K kdf stQ dbQ peerQ ct pk saltQ ivQ stQ2 dbQ2
      (by rw [hdecap]; exact hss) (by rw [hdecap]; exact hne) hReq
  rw [hdecap] at hQs hQk
  exact ⟨by rw [hRs, lookupAssoc_setAssoc_self],
         by rw [hRk, lookupAssoc_setAssoc_self],
         by rw [hQs, lookupAssoc_setAssoc_self],
         by rw [hQk, lookupAssoc_setAssoc_self]⟩

/-- Responder state for the C4 witness handshake. -/
def stResp : CryptoState :=
  { userId := "bob", kyberPk := [1], kyberSk := [1], falconPk := [], falconSk := []
    sharedSecrets := [], aesKeys := [] }

/-- Requester state for the C4 witness handshake (its KEM secret key matches
the public key the responder encapsulates against). -/
def stReq : CryptoState :=
  { userId := "alice", kyberPk := [1], kyberSk := [1], falconPk := [], falconSk := []
    sharedSecrets := [], aesKeys := [] }

/-- The responder run of the C4 witness. -/
def c4respRun : Except Err (Bytes × CryptoState × DB) :=
  establishSharedSecret toyKEM toyKdf stResp emptyDB "alice" [1] [2] [3] [4]

/-- Ciphertext produced by the witness responder run. -/
def c4ct : Bytes := match c4respRun with | .ok (ct, _, _) => ct | .error _ => []

/-- State after the witness responder run. -/
def c4stR : CryptoState :=
  match c4respRun with | .ok (_, s, _) => s | .error _ => stResp

/-- Database after the witness responder run. -/
def c4dbR : DB := match c4respRun with | .ok (_, _, d) => d | .error _ => emptyDB

/-- The requester run of the C4 witness, decapsulating the responder's
ciphertext. -/
def c4reqRun : Except Err (CryptoState × DB) :=
  decapsulate toyKEM toyKdf stReq emptyDB "bob" c4ct [1] [5] [6]

/-- State after the witness requester run. -/
def c4stQ : CryptoState := match c4reqRun with | .ok (s, _) => s | .error _ => stReq

/-- Database after the witness requester run. -/
def c4dbQ : DB := match c4reqRun with | .ok (_, d) => d | .error _ => emptyDB

/-- Witness for C4: the toy KEM's keypair `([1], [1])` with randomness `[2]`;
both runs succeed and both sides cache the identical raw secret `[2]` as the
session key. -/
theorem kem_establish_decap_same_key_no_kdf_witness :
    toyKEM.IsKeyPair [1] [1]
    ∧ stReq.kyberSk = [1]
    ∧ (∀ b ∈ (toyKEM.encap [1] [2]).2, b < 256)
    ∧ (toyKEM.encap [1] [2]).2 ≠ []
    ∧ c4respRun = .ok (c4ct, c4stR, c4dbR)
    ∧ c4reqRun = .ok (c4stQ, c4dbQ)
    ∧ (lookupAssoc c4stR.sharedSecrets "alice" = some (toyKEM.encap [1] [2]).2
       ∧ lookupAssoc c4stR.aesKeys "alice" = some (toyKEM.encap [1] [2]).2
       ∧ lookupAssoc c4stQ.sharedSecrets "bob" = some (toyKEM.encap [1] [2]).2
       ∧ lookupAssoc c4stQ.aesKeys "bob" = some (toyKEM.encap [1] [2]).2) :=
  ⟨rfl, rfl, by decide, by decide, by decide, by decide,
   kem_establish_decap_same_key_no_kdf toyKEM toyKdf stResp stReq emptyDB emptyDB
     "alice" "bob" [1] [1] [2] [3] [4] [5] [6] c4ct c4stR c4dbR c4stQ c4dbQ
     rfl rfl (by decide) (by decide) (by decide) (by decide)⟩

/-! ## Claim C10: sending without a completed handshake fails -/

/-- Claim C10: on the send path, with no in-memory session key for the peer and
no persisted PeerSession record for `(userId, peerId)` (so lazy rehydration
finds nothing), `encryptAES` throws "Shared secret missing" and produces no
ciphertext, and `sendMessage` therefore fails without emitting a frame or
persisting anything. -/
theorem sendMessage_fails_without_session
    (S : Sig) (kdf : Kdf) (enc : PayloadEnc) (st : CryptoState) (db : DB)
    (sent : List WireMsg) (peerId text fromUserId : String)
    (ivEnc : Bytes) (now : Nat) (msgIv : Bytes)
    (hmem : lookupAssoc st.aesKeys peerId = none)
    (hrec : peersFirstByPair db.peers st.userId peerId = none) :
    encryptAES kdf st db text peerId ivEnc = .error .sharedSecretMissing
    ∧ sendMessage S kdf enc st db sent peerId text fromUserId ivEnc now msgIv
        = .error .sharedSecretMissing := by
  have hder : deriveStoredSharedKey kdf db st.userId peerId userPassphrase
      = .ok none := by
    unfold deriveStoredSharedKey
    rw [hrec]
  have henc : encryptAES kdf st db text peerId ivEnc
      = .error .sharedSecretMissing := by
    unfold encryptAES
    rw [hmem]
    simp [hder, Bind.bind, Except.bind]
  refine ⟨henc, ?_⟩
  unfold sendMessage
  simp [henc, Bind.bind, Except.bind]

/-- Witness for C10: Bob has no in-memory key for Alice and an empty peers
table. -/
theorem sendMessage_fails_without_session_witness :
    lookupAssoc stResp.aesKeys "alice" = none
    ∧ peersFirstByPair emptyDB.peers stResp.userId "alice" = none
    ∧ (encryptAES toyKdf stResp emptyDB "hi" "alice" [1]
        = .error .sharedSecretMissing
       ∧ sendMessage toySigReject toyKdf toyEnc stResp emptyDB [] "alice" "hi"
          "bob" [1] 5 [2] = .error .sharedSecretMissing) :=
  ⟨rfl, rfl,
   sendMessage_fails_without_session toySigReject toyKdf toyEnc stResp emptyDB
     [] "alice" "hi" "bob" [1] 5 [2] rfl rfl⟩

/-! ## Claim C9: per-peer isolation of startup history restore -/

theorem lookupAssoc_fold_setAssoc {α : Type} (g : String → α)
    (rows : List PeerRow) (acc : List (String × α)) (p : String) :
    lookupAssoc (rows.foldl (fun a r => setAssoc a r.peerId (g r.peerId)) acc) p
      = if rows.any (fun r => r.peerId = p) then some (g p)
        else lookupAssoc acc p := by
  induction rows generalizing acc with
  | nil => simp
  | cons r rest ih =>
    rw [List.foldl_cons, ih, List.any_cons]
    by_cases hrest : rest.any (fun r => r.peerId = p)
    · simp [hrest]
    · have hrest' : rest.any (fun r => r.peerId = p) = false := by
        cases h : rest.any (fun r => r.peerId = p) with
        | false => rfl
        | true => exact absurd h hrest
      rw [hrest']
      by_cases hp : r.peerId = p
      · simp [hp, lookupAssoc_setAssoc]
      · have hp' : ¬ (p = r.peerId) := fun h => hp h.symm
        simp [hp, hp', lookupAssoc_setAssoc]

/-- Claim C9: restoring histories on startup is isolated per peer — for every
peer that has a record, the returned map entry is exactly that peer's own
restore result, with any decryption or rehydration failure degraded to an
empty history for that peer alone (other peers' entries are untouched by it),
and `loadPeerMessages` itself never throws (it is a total function). -/
theorem loadPeerMessages_isolated (kdf : Kdf) (db : DB) (u p : String)
    (hp : (peersByUserId db.peers u).any (fun r => r.peerId = p) = true) :
    lookupAssoc (loadPeerMessages kdf db u) p
      = some (restoreOrEmpty kdf db u p)
    ∧ (match restorePeer kdf db u p with
       | .ok msgs => restoreOrEmpty kdf db u p = msgs
       | .error _ => restoreOrEmpty kdf db u p = []) := by
  constructor
  · unfold loadPeerMessages
    rw [lookupAssoc_fold_setAssoc (restoreOrEmpty kdf db u)
        (peersByUserId db.peers u) [] p, hp]
    simp
  · unfold restoreOrEmpty
    cases restorePeer kdf db u p <;> simp

/-- Two-peer database for the C9 witness: Bob has sessions with Alice and Carl;
Alice's history decrypts fine, Carl's one message was encrypted under a key
that does not match his stored shared secret, so his restore fails. -/
def dbC9 : DB :=
  { identity := []
    messages :=
      [{ userId := "bob", peerId := "alice", direction := "incoming"
         ciphertext := subtleEncrypt [7, 7] [4] (strBytes "hi")
         iv := [4], createdAt := 1 },
       { userId := "bob", peerId := "carl", direction := "incoming"
         ciphertext := subtleEncrypt [9, 9] [4] (strBytes "yo")
         iv := [4], createdAt := 2 }]
    peers :=
      [{ id := 1, userId := some "bob", peerId := "alice", kyberPk := some [1]
         falconPk := none
         encSharedKey := some (subtleEncrypt (toyKdf userPassphrase [2]) [3] [7, 7])
         iv := some (bufToHex [3]), salt := some (bufToHex [2]) },
       { id := 2, userId := some "bob", peerId := "carl", kyberPk := some [1]
         falconPk := none
         encSharedKey := some (subtleEncrypt (toyKdf userPassphrase [2]) [3] [8, 8])
         iv := some (bufToHex [3]), salt := some (bufToHex [2]) }]
    nextPeerId := 3 }

/-- Witness for C9: Carl's restore fails and degrades to `[]` while Alice's
history is still fully restored. -/
theorem loadPeerMessages_isolated_witness :
    ((peersByUserId dbC9.peers "bob").any (fun r => r.peerId = "carl") = true)
    ∧ (lookupAssoc (loadPeerMessages toyKdf dbC9 "bob") "carl"
         = some (restoreOrEmpty toyKdf dbC9 "bob" "carl")
       ∧ (match restorePeer toyKdf dbC9 "bob" "carl" with
          | .ok msgs => restoreOrEmpty toyKdf dbC9 "bob" "carl" = msgs
          | .error _ => restoreOrEmpty toyKdf dbC9 "bob" "carl" = []))
    ∧ restoreOrEmpty toyKdf dbC9 "bob" "carl" = []
    ∧ lookupAssoc (loadPeerMessages toyKdf dbC9 "bob") "alice"
        = some [{ sender := "alice", text := "hi", timestamp := 1 }] :=
  ⟨by decide,
   loadPeerMessages_isolated toyKdf dbC9 "bob" "carl" (by decide),
   by decide, by decide⟩

/-! ## Claims C6 and C8: identity storage -/

/-- The identity record `storeIdentityKeys` writes (with the hex coding of the
secret keys already unfolded under the byte-validity hypotheses). -/
def mkIdentityRow (kdf : Kdf) (userId pass : String) (kk fk : KeyPairB)
    (salt ivK ivF : Bytes) : IdentityRow :=
  { userId := userId
    kyberPk := bufToHex kk.pk
    falconPk := bufToHex fk.pk
    encKyberSk := subtleEncrypt (kdf pass salt) ivK kk.sk
    kyberIv := arrayBufferToHex ivK
    encFalconSk := subtleEncrypt (kdf pass salt) ivF fk.sk
    falconIv := arrayBufferToHex ivF
    salt := arrayBufferToHex salt }

theorem storeIdentityKeys_eq (kdf : Kdf) (db : DB) (userId pass : String)
    (kk fk : KeyPairB) (salt ivK ivF : Bytes)
    (hk : ∀ b ∈ kk.sk, b < 256) (hkne : kk.sk ≠ [])
    (hf : ∀ b ∈ fk.sk, b < 256) (hfne : fk.sk ≠ []) :
    storeIdentityKeys kdf db userId pass kk fk salt ivK ivF
      = .ok { db with
          identity := identityPut db.identity (mkIdentityRow kdf userId pass kk fk salt ivK ivF) } := by
  simp [storeIdentityKeys, aesEncrypt, hexToBuf_bufToHex hk hkne,
    hexToBuf_bufToHex hf hfne, Bind.bind, Except.bind, mkIdentityRow,
    subtleEncrypt]

theorem loadIdentityKeys_of_row (kdf : Kdf) (dbx : DB) (userId pass : String)
    (kk fk : KeyPairB) (salt ivK ivF : Bytes)
    (hsalt : ∀ b ∈ salt, b < 256) (hivK : ∀ b ∈ ivK, b < 256)
    (hivF : ∀ b ∈ ivF, b < 256)
    (hrow : identityGet dbx.identity userId
      = some (mkIdentityRow kdf userId pass kk fk salt ivK ivF)) :
    loadIdentityKeys kdf dbx userId pass
      = .ok (some { kyberPk := bufToHex kk.pk, kyberSk := bufToHex kk.sk
                    falconPk := bufToHex fk.pk, falconSk := bufToHex fk.sk }) := by
  unfold loadIdentityKeys
  rw [hrow]
  simp [mkIdentityRow, arrayBufferToHex, hexToArrayBuffer_bufToHex hsalt,
    hexToArrayBuffer_bufToHex hivK, hexToArrayBuffer_bufToHex hivF,
    aesDecrypt, subtleDecrypt, subtleEncrypt, Bind.bind, Except.bind]

theorem loadIdentityKeys_wrong_pass (kdf : Kdf) (dbx : DB)
    (userId pass pass2 : String) (kk fk : KeyPairB) (salt ivK ivF : Bytes)
    (hsalt : ∀ b ∈ salt, b < 256)
    (hkdf : kdf pass2 salt ≠ kdf pass salt)
    (hrow : identityGet dbx.identity userId
      = some (mkIdentityRow kdf userId pass kk fk salt ivK ivF)) :
    loadIdentityKeys kdf dbx userId pass2 = .error .authFailure := by
  unfold loadIdentityKeys
  rw [hrow]
  have hne : ¬ (kdf pass salt = kdf pass2 salt) := fun h => hkdf h.symm
  simp [mkIdentityRow, arrayBufferToHex, hexToArrayBuffer_bufToHex hsalt,
    aesDecrypt, subtleDecrypt, subtleEncrypt, hne, Bind.bind, Except.bind]

/-- Claim C6: after `storeIdentityKeys(userId, P, kyberKeys, falconKeys)`,
`loadIdentityKeys(userId, P)` returns both public keys and both decrypted
secret keys equal (as hex encodings) to the stored originals; the persisted
record carries one salt for one derived key protecting both secrets, each under
its own IV; loading a userId that was never stored returns `null`; and loading
with a wrong passphrase (whose derived key differs) fails with the
authentication error instead of returning key material. -/
theorem identity_store_load_roundtrip
    (kdf : Kdf) (db : DB) (u pass pass2 : String) (kk fk : KeyPairB)
    (salt ivK ivF : Bytes) (db2 : DB)
    (hk : ∀ b ∈ kk.sk, b < 256) (hkne : kk.sk ≠ [])
    (hf : ∀ b ∈ fk.sk, b < 256) (hfne : fk.sk ≠ [])
    (hsalt : ∀ b ∈ salt, b < 256) (hivK : ∀ b ∈ ivK, b < 256)
    (hivF : ∀ b ∈ ivF, b < 256)
    (hnf : identityGet db.identity u = none)
    (hkdf : kdf pass2 salt ≠ kdf pass salt)
    (hstore : storeIdentityKeys kdf db u pass kk fk salt ivK ivF = .ok db2) :
    loadIdentityKeys kdf db2 u pass
      = .ok (some { kyberPk := bufToHex kk.pk, kyberSk := bufToHex kk.sk
                    falconPk := bufToHex fk.pk, falconSk := bufToHex fk.sk })
    ∧ identityGet db2.identity u
        = some (mkIdentityRow kdf u pass kk fk salt ivK ivF)
    ∧ loadIdentityKeys kdf db u pass = .ok none
    ∧ loadIdentityKeys kdf db2 u pass2 = .error .authFailure := by
  rw [storeIdentityKeys_eq kdf db u pass kk fk salt ivK ivF hk hkne hf hfne]
    at hstore
  have hdb2 : db2 = { db with
      identity := identityPut db.identity (mkIdentityRow kdf u pass kk fk salt ivK ivF) } :=
    (Except.ok.inj hstore).symm
  subst hdb2
  have hrow : identityGet
      (identityPut db.identity (mkIdentityRow kdf u pass kk fk salt ivK ivF)) u
      = some (mkIdentityRow kdf u pass kk fk salt ivK ivF) :=
    identityGet_identityPut_self db.identity _
  refine ⟨?_, hrow, ?_, ?_⟩
  · exact loadIdentityKeys_of_row kdf _ u pass kk fk salt ivK ivF
      hsalt hivK hivF hrow
  · unfold loadIdentityKeys
    rw [hnf]
  · exact loadIdentityKeys_wrong_pass kdf _ u pass pass2 kk fk salt ivK ivF
      hsalt hkdf hrow

/-- The C6 witness store run. -/
def c6run : Except Err DB :=
  storeIdentityKeys toyKdf emptyDB "bob" "pw" ⟨[1, 2], [3, 4]⟩ ⟨[5, 6], [7, 8]⟩
    [9] [10] [11]

/-- Database after the C6 witness store run. -/
def c6db : DB := match c6run with | .ok d => d | .error _ => emptyDB

/-- Witness for C6 with concrete keypairs, salt and IVs. -/
theorem identity_store_load_roundtrip_witness :
    (∀ b ∈ ([3, 4] : Bytes), b < 256) ∧ ([3, 4] : Bytes) ≠ []
    ∧ (∀ b ∈ ([7, 8] : Bytes), b < 256) ∧ ([7, 8] : Bytes) ≠ []
    ∧ (∀ b ∈ ([9] : Bytes), b < 256) ∧ (∀ b ∈ ([10] : Bytes), b < 256)
    ∧ (∀ b ∈ ([11] : Bytes), b < 256)
    ∧ identityGet emptyDB.identity "bob" = none
    ∧ toyKdf "pw2" [9] ≠ toyKdf "pw" [9]
    ∧ c6run = .ok c6db
    ∧ (loadIdentityKeys toyKdf c6db "bob" "pw"
         = .ok (some { kyberPk := bufToHex [1, 2], kyberSk := bufToHex [3, 4]
                       falconPk := bufToHex [5, 6], falconSk := bufToHex [7, 8] })
       ∧ identityGet c6db.identity "bob"
           = some (mkIdentityRow toyKdf "bob" "pw" ⟨[1, 2], [3, 4]⟩
               ⟨[5, 6], [7, 8]⟩ [9] [10] [11])
       ∧ loadIdentityKeys toyKdf emptyDB "bob" "pw" = .ok none
       ∧ loadIdentityKeys toyKdf c6db "bob" "pw2" = .error .authFailure) :=
  ⟨by decide, by decide, by decide, by decide, by decide, by decide, by decide,
   by decide, by decide, by decide,
   identity_store_load_roundtrip toyKdf emptyDB "bob" "pw" "pw2"
     ⟨[1, 2], [3, 4]⟩ ⟨[5, 6], [7, 8]⟩ [9] [10] [11] c6db
     (by decide) (by decide) (by decide) (by decide) (by decide) (by decide)
     (by decide) (by decide) (by decide) (by decide)⟩

/-- Claim C8: storing an identity twice for the same `userId` overwrites the
record (the `identity` table is keyed by the unique `&userId` primary key and
`put` replaces): afterwards exactly one identity record exists for that
`userId`, and a subsequent load returns only the secrets of the latest store.
-/
theorem identity_double_store_overwrites
    (kdf : Kdf) (db : DB) (u pass : String) (kk1 fk1 kk2 fk2 : KeyPairB)
    (salt1 ivK1 ivF1 salt2 ivK2 ivF2 : Bytes) (db1 db2 : DB)
    (hk1 : ∀ b ∈ kk1.sk, b < 256) (hk1ne : kk1.sk ≠ [])
    (hf1 : ∀ b ∈ fk1.sk, b < 256) (hf1ne : fk1.sk ≠ [])
    (hk2 : ∀ b ∈ kk2.sk, b < 256) (hk2ne : kk2.sk ≠ [])
    (hf2 : ∀ b ∈ fk2.sk, b < 256) (hf2ne : fk2.sk ≠ [])
    (hsalt2 : ∀ b ∈ salt2, b < 256) (hivK2 : ∀ b ∈ ivK2, b < 256)
    (hivF2 : ∀ b ∈ ivF2, b < 256)
    (hcount : db.identity.countP (fun r => decide (r.userId = u)) ≤ 1)
    (h1 : storeIdentityKeys kdf db u pass kk1 fk1 salt1 ivK1 ivF1 = .ok db1)
    (h2 : storeIdentityKeys kdf db1 u pass kk2 fk2 salt2 ivK2 ivF2 = .ok db2) :
    db2.identity.countP (fun r => decide (r.userId = u)) = 1
    ∧ loadIdentityKeys kdf db2 u pass
        = .ok (some { kyberPk := bufToHex kk2.pk, kyberSk := bufToHex kk2.sk
                      falconPk := bufToHex fk2.pk, falconSk := bufToHex fk2.sk }) := by
  rw [storeIdentityKeys_eq kdf db u pass kk1 fk1 salt1 ivK1 ivF1
      hk1 hk1ne hf1 hf1ne] at h1
  have hdb1 : db1 = { db with
      identity := identityPut db.identity (mkIdentityRow kdf u pass kk1 fk1 salt1 ivK1 ivF1) } :=
    (Except.ok.inj h1).symm
  subst hdb1
  rw [storeIdentityKeys_eq kdf _ u pass kk2 fk2 salt2 ivK2 ivF2
      hk2 hk2ne hf2 hf2ne] at h2
  have hdb2 : db2 = { db with
      identity := identityPut
        (identityPut db.identity (mkIdentityRow kdf u pass kk1 fk1 salt1 ivK1 ivF1))
        (mkIdentityRow kdf u pass kk2 fk2 salt2 ivK2 ivF2) } :=
    (Except.ok.inj h2).symm
  subst hdb2
  constructor
  · have s1 := countP_identityPut db.identity
      (mkIdentityRow kdf u pass kk1 fk1 salt1 ivK1 ivF1)
      (by simpa [mkIdentityRow] using hcount)
    have s2 := countP_identityPut
      (identityPut db.identity (mkIdentityRow kdf u pass kk1 fk1 salt1 ivK1 ivF1))
      (mkIdentityRow kdf u pass kk2 fk2 salt2 ivK2 ivF2)
      (by simpa [mkIdentityRow] using le_of_eq s1)
    simpa [mkIdentityRow] using s2
  · exact loadIdentityKeys_of_row kdf _ u pass kk2 fk2 salt2 ivK2 ivF2
      hsalt2 hivK2 hivF2 (identityGet_identityPut_self _ _)

/-- The C8 witness second store run for the same user, with fresh keypairs,
salt and IVs. -/
def c8run : Except Err DB :=
  storeIdentityKeys toyKdf c6db "bob" "pw" ⟨[21, 22], [23, 24]⟩
    ⟨[25, 26], [27, 28]⟩ [12] [13] [14]

/-- Database after the C8 witness second store. -/
def c8db : DB := match c8run with | .ok d => d | .error _ => emptyDB

/-- Witness for C8: two stores for `bob`; exactly one record remains and the
load returns the second store's secrets. -/
theorem identity_double_store_overwrites_witness :
    (∀ b ∈ ([3, 4] : Bytes), b < 256) ∧ ([3, 4] : Bytes) ≠ []
    ∧ (∀ b ∈ ([7, 8] : Bytes), b < 256) ∧ ([7, 8] : Bytes) ≠ []
    ∧ (∀ b ∈ ([23, 24] : Bytes), b < 256) ∧ ([23, 24] : Bytes) ≠ []
    ∧ (∀ b ∈ ([27, 28] : Bytes), b < 256) ∧ ([27, 28] : Bytes) ≠ []
    ∧ (∀ b ∈ ([12] : Bytes), b < 256) ∧ (∀ b ∈ ([13] : Bytes), b < 256)
    ∧ (∀ b ∈ ([14] : Bytes), b < 256)
    ∧ emptyDB.identity.countP (fun r => decide (r.userId = "bob")) ≤ 1
    ∧ c6run = .ok c6db
    ∧ c8run = .ok c8db
    ∧ (c8db.identity.countP (fun r => decide (r.userId = "bob")) = 1
       ∧ loadIdentityKeys toyKdf c8db "bob" "pw"
           = .ok (some { kyberPk := bufToHex [21, 22], kyberSk := bufToHex [23, 24]
                         falconPk := bufToHex [25, 26], falconSk := bufToHex [27, 28] })) :=
  ⟨by decide, by decide, by decide, by decide, by decide, by decide, by decide,
   by decide, by decide, by decide, by decide, by decide, by decide, by decide,
   identity_double_store_overwrites toyKdf emptyDB "bob" "pw"
     ⟨[1, 2], [3, 4]⟩ ⟨[5, 6], [7, 8]⟩ ⟨[21, 22], [23, 24]⟩ ⟨[25, 26], [27, 28]⟩
     [9] [10] [11] [12] [13] [14] c6db c8db
     (by decide) (by decide) (by decide) (by decide) (by decide) (by decide)
     (by decide) (by decide) (by decide) (by decide) (by decide) (by decide)
     (by decide) (by decide)⟩
